import Mathlib

/-!
# Verification of the regression-cloud dashboard (`app.py`)

Shallow embedding of the window-resolution, aggregation and ingestion logic of
the dashboard.  Instants are modelled as integer seconds in two scales:

* *local* seconds: seconds elapsed since local midnight of an (arbitrary) epoch
  day in the configured timezone `Asia/Kolkata`;
* *UTC* seconds: the same instant on the UTC clock.

`Asia/Kolkata` is a fixed-offset zone (UTC+05:30 = 19800 s, no DST), so the two
scales differ by the constant `istOffset` and Python's
`tz.localize(...)`/`astimezone(pytz.UTC).replace(tzinfo=None)` round-trips are
plain additions/subtractions.  A Python `datetime`'s calendar date corresponds
to the floor-division day number `dateOf`, and Lean's `/` on `ℤ` is floor
division for positive divisors.  Query strings are modelled by their parse
outcome (absent/falsy, present-but-unparsable, or the parsed value), which is
the only property the code inspects.
-/

/-- Seconds in one day. -/
def secondsPerDay : ℤ := 86400

/-- Fixed UTC offset of `Asia/Kolkata` in seconds (+05:30). -/
def istOffset : ℤ := 19800

/-- Seconds from local midnight to the business-day anchor 10:00:01. -/
def anchorSecs : ℤ := 36001

/-- Calendar-day number of an instant (floor division by 86400):
the Lean counterpart of reading `year/month/day` off a `datetime`. -/
def dateOf (t : ℤ) : ℤ := t / secondsPerDay

/-- `tz.localize(datetime(now.year, now.month, now.day, 10, 0, 1))` for a local
instant `t`: the anchor 10:00:01 on `t`'s calendar date, in local seconds. -/
def anchorOf (t : ℤ) : ℤ := dateOf t * secondsPerDay + anchorSecs

/-- The quadruple returned by `get_window_bounds`:
`(start_local, end_local, start_utc, end_utc)`. -/
structure Window where
  start_local : ℤ
  end_local : ℤ
  start_utc : ℤ
  end_utc : ℤ
  deriving Repr, DecidableEq

/-- `local.astimezone(pytz.UTC).replace(tzinfo=None)` for a fixed-offset zone. -/
def toUTC (t : ℤ) : ℤ := t - istOffset

/-- The local calendar date of a stored naive-UTC instant: what window labels
are derived from, and what the spec requires day-bucketed grouping to use. -/
def localDateOf (t : ℤ) : ℤ := dateOf (t + istOffset)

/-- Embedding of `get_window_bounds(ref_dt_local)` (app.py lines 56-70):
anchor is today's 10:00:01 if the reference is at or after it, else
yesterday's 10:00:01; the window spans exactly 24 h. -/
def get_window_bounds (r : ℤ) : Window :=
  let ten_am_today := anchorOf r
  let start_local := if ten_am_today ≤ r then ten_am_today else ten_am_today - secondsPerDay
  let end_local := start_local + secondsPerDay
  { start_local := start_local
    end_local := end_local
    start_utc := toUTC start_local
    end_utc := toUTC end_local }

/-- The membership test every windowed query applies to a stored UTC instant:
`start_utc <= started_at < end_utc` (inclusive start, strict end). -/
def inQueryWindow (w : Window) (t : ℤ) : Prop :=
  w.start_utc ≤ t ∧ t < w.end_utc

instance (w : Window) (t : ℤ) : Decidable (inQueryWindow w t) := by
  unfold inQueryWindow; infer_instance

/-- A `start`/`end` query argument as seen by `parse_iso_utc`: absent (missing
or empty string, hence falsy), present but not ISO-8601, or present and
parsing to the UTC instant `v` (offset-aware input converted to UTC, naive
input taken as UTC — this is what `parse_iso_utc` returns for it). -/
inductive IsoParam where
  | absent
  | malformed
  | valid (v : ℤ)
  deriving Repr, DecidableEq

/-- Embedding of `parse_iso_utc` (app.py lines 79-88): `None` for absent or
unparsable input, otherwise the naive-UTC instant. -/
def parse_iso_utc : IsoParam → Option ℤ
  | .absent => none
  | .malformed => none
  | .valid v => some v

/-- Python truthiness of the raw argument (`if start_param and end_param`). -/
def IsoParam.present : IsoParam → Bool
  | .absent => false
  | _ => true

/-- A `day` query argument: absent, not of the form `%Y-%m-%d`, or naming the
local calendar day number `d`. -/
inductive DayParam where
  | absent
  | malformed
  | valid (d : ℤ)
  deriving Repr, DecidableEq

/-- Local noon (12:00:00) of calendar day `d`, the reference instant the
resolver builds for a `day` parameter. -/
def noonOf (d : ℤ) : ℤ := d * secondsPerDay + 43200

/-- Embedding of `resolve_window_from_request` (app.py lines 91-114): if both
`start` and `end` are supplied and parse, the pair is used verbatim as the UTC
window (local bounds derived by shifting into the configured zone); otherwise
a parsable `day` resolves via `get_window_bounds` at that day's local noon;
otherwise `get_window_bounds` at the current instant. -/
def resolve_window_from_request (startP endP : IsoParam) (dayP : DayParam)
    (now_local : ℤ) : Window :=
  let viaStartEnd : Option Window :=
    if startP.present && endP.present then
      match parse_iso_utc startP, parse_iso_utc endP with
      | some s, some e =>
          some { start_local := s + istOffset, end_local := e + istOffset,
                 start_utc := s, end_utc := e }
      | _, _ => none
    else none
  match viaStartEnd with
  | some w => w
  | none =>
    match dayP with
    | .valid d => get_window_bounds (noonOf d)
    | _ => get_window_bounds now_local

/-- A `start`/`end` argument of the `/details` page, parsed by `parse_dt_local`
with the strict format `%Y-%m-%d %H:%M:%S`: absent/empty (falsy), present but
not matching the format (`strptime` raises `ValueError`), or present and
naming the local instant `v`. -/
inductive LocalParam where
  | absent
  | malformed
  | valid (v : ℤ)
  deriving Repr, DecidableEq

/-- Python truthiness of the raw `/details` argument. -/
def LocalParam.present : LocalParam → Bool
  | .absent => false
  | _ => true

/-- Embedding of `parse_dt_local` (app.py lines 72-76): `None` on falsy input,
otherwise the naive-UTC conversion of the parsed local wall-clock instant; a
present-but-malformed string raises (`Except.error`), uncaught by the caller. -/
def parse_dt_local : LocalParam → Except Unit (Option ℤ)
  | .absent => .ok none
  | .malformed => .error ()
  | .valid v => .ok (some (toUTC v))

/-- Embedding of the window resolution inside the `/details` route (app.py
lines 150-165): the default window is computed first; when both `start` and
`end` are supplied, the UTC query bounds are overridden by `parse_dt_local`
(whose exception propagates as an error response) while the displayed local
bounds keep their default values.  The final catch-all arm is unreachable for
present arguments, which either parse or raise. -/
def details_window (startP endP : LocalParam) (now_local : ℤ) :
    Except Unit Window :=
  let w := get_window_bounds now_local
  if startP.present && endP.present then
    match parse_dt_local startP, parse_dt_local endP with
    | .error _, _ => .error ()
    | _, .error _ => .error ()
    | .ok (some s), .ok (some e) => .ok { w with start_utc := s, end_utc := e }
    | _, _ => .ok w
  else .ok w

/-- A stored `Run` row (app.py lines 24-35).  `started_at`/`ended_at` are naive
UTC instants in seconds; optional columns are `Option`s. -/
structure Run where
  request_id : String
  scheduler : String
  cloud : Option String
  started_at : ℤ
  ended_at : Option ℤ
  status : String
  reason : Option String
  subreason : Option String
  notes : Option String
  deriving Repr, DecidableEq

/-- The window filter every read query applies:
`Run.started_at >= start_utc, Run.started_at < end_utc`. -/
def windowRuns (runs : List Run) (start_utc end_utc : ℤ) : List Run :=
  runs.filter fun r => decide (start_utc ≤ r.started_at) && decide (r.started_at < end_utc)

/-- SQL `GROUP BY key` with `COUNT(*)`: one row per distinct key. -/
def groupCounts {α : Type} [DecidableEq α] (keys : List α) : List (α × ℕ) :=
  keys.dedup.map fun k => (k, keys.count k)

/-- Python's `r or "Unknown"` on an optional reason column (`None` and the
empty string are falsy). -/
def orUnknown (r : Option String) : String :=
  match r with
  | none => "Unknown"
  | some s => if s = "" then "Unknown" else s

/-- Python's `cloud or "unknown"` on an optional cloud column. -/
def cloudKey (c : Option String) : String :=
  match c with
  | none => "unknown"
  | some s => if s = "" then "unknown" else s

/-- Association-list `setdefault`-then-modify: locate key `k`, apply `f` to its
value, or append `(k, f d)` when absent (Python dict insertion order). -/
def alUpdate {α β : Type} [DecidableEq α] :
    List (α × β) → α → β → (β → β) → List (α × β)
  | [], k, d, f => [(k, f d)]
  | (k', v) :: t, k, d, f =>
      if k = k' then (k', f v) :: t else (k', v) :: alUpdate t k d f

/-- Association-list lookup. -/
def alGet {α β : Type} [DecidableEq α] (l : List (α × β)) (k : α) : Option β :=
  (l.find? fun p => decide (p.1 = k)).map Prod.snd

/-- Association-list assignment `m[k] = v`. -/
def alSet {α β : Type} [DecidableEq α] (l : List (α × β)) (k : α) (v : β) :
    List (α × β) :=
  alUpdate l k v fun _ => v

/-- The JSON body of `/api/summary`. -/
structure Summary where
  total_runs : ℕ
  status_counts : List (String × ℕ)
  failures : List (String × ℕ)
  deriving Repr, DecidableEq

/-- Embedding of `api_summary` (app.py lines 170-195) for an already resolved
window: total count, counts grouped by status, and counts of `FAILED` runs
grouped by raw reason, displayed through `r or "Unknown"`. -/
def api_summary (runs : List Run) (s e : ℤ) : Summary :=
  { total_runs := (windowRuns runs s e).length
    status_counts := groupCounts ((windowRuns runs s e).map Run.status)
    failures :=
      (groupCounts (((windowRuns runs s e).filter
          fun r => decide (r.status = "FAILED")).map Run.reason)).map
        fun p => (orUnknown p.1, p.2) }

/-- Embedding of `api_failures` (app.py lines 197-210): failed runs in the
window grouped into reason buckets in encounter order (the SQL sort inside
each bucket is not modelled; bucket contents and keys are). -/
def api_failures (runs : List Run) (s e : ℤ) : List (String × List Run) :=
  ((windowRuns runs s e).filter fun r => decide (r.status = "FAILED")).foldl
    (fun out r => alUpdate out (orUnknown r.reason) [] fun l => l ++ [r]) []

/-- Embedding of `api_runs` (app.py lines 212-230): the windowed list further
restricted by the optional truthy `status`/`reason`/`scheduler`/`cloud`
exact-match filters, in the order the code applies them. -/
def api_runs (runs : List Run) (s e : ℤ)
    (statusF reasonF schedulerF cloudF : Option String) : List Run :=
  let q0 := windowRuns runs s e
  let q1 := match statusF with
    | some v => q0.filter fun r => decide (r.status = v)
    | none => q0
  let q2 := match reasonF with
    | some v => q1.filter fun r => decide (r.reason = some v)
    | none => q1
  let q3 := match schedulerF with
    | some v => q2.filter fun r => decide (r.scheduler = v)
    | none => q2
  match cloudF with
  | some v => q3.filter fun r => decide (r.cloud = some v)
  | none => q3

/-- Embedding of `api_by_cloud` (app.py lines 232-246): counts grouped by
`(cloud, status)`, reshaped into a per-cloud mapping with the `"unknown"`
sentinel for an absent cloud tag. -/
def api_by_cloud (runs : List Run) (s e : ℤ) :
    List (String × List (String × ℕ)) :=
  (groupCounts ((windowRuns runs s e).map fun r => (r.cloud, r.status))).foldl
    (fun out kv => alUpdate out (cloudKey kv.1.1) [] fun m => alSet m kv.1.2 kv.2)
    []

/-! ## Cloud trend (`/api/cloud_trend`) -/

/-- The `days` query argument: absent (default 7), present but not an integer
(`int()` raises, caught, default 7), or the integer `n`. -/
inductive DaysParam where
  | absent
  | malformed
  | valid (n : ℤ)
  deriving Repr, DecidableEq

/-- `days = max(1, min(days, 30))` after defaulting (app.py lines 269-273). -/
def clampDays : DaysParam → ℤ
  | .absent => 7
  | .malformed => 7
  | .valid n => max 1 (min n 30)

/-- One `{"passed": _, "failed": _, "total": _}` day bucket of the trend. -/
structure DayBucket where
  passed : ℕ
  failed : ℕ
  total : ℕ
  deriving Repr, DecidableEq

/-- The bucket a day starts from. -/
def zeroBucket : DayBucket := { passed := 0, failed := 0, total := 0 }

/-- One grouped row's contribution (app.py lines 305-309): `PASSED` counts
toward `passed`, every other status toward `failed`; `total` always grows. -/
def applyStatus (b : DayBucket) (status : String) (count : ℕ) : DayBucket :=
  if status = "PASSED" then
    { b with passed := b.passed + count, total := b.total + count }
  else
    { b with failed := b.failed + count, total := b.total + count }

/-- A grouped row of the trend query: `(func.date(started_at), cloud, status)`
with its count.  `func.date` of the stored naive-UTC column is the *UTC*
calendar day `dateOf started_at`. -/
def trendRows (runs : List Run) (s e : ℤ) :
    List ((ℤ × Option String × String) × ℕ) :=
  groupCounts ((windowRuns runs s e).map fun r =>
    (dateOf r.started_at, r.cloud, r.status))

/-- `{c: {} for c in ["blr-cloud4", "blr-cloud5"]}`. -/
def defaultClouds : List (String × List (ℤ × DayBucket)) :=
  [("blr-cloud4", []), ("blr-cloud5", [])]

/-- One iteration of the row loop of `api_cloud_trend` (app.py lines 299-309):
nested `setdefault` into the row's per-cloud, per-date bucket. -/
def trendStep (clouds : List (String × List (ℤ × DayBucket)))
    (row : (ℤ × Option String × String) × ℕ) :
    List (String × List (ℤ × DayBucket)) :=
  alUpdate clouds (cloudKey row.1.2.1) []
    fun st => alUpdate st row.1.1 zeroBucket
      fun b => applyStatus b row.1.2.2 row.2

/-- The row loop of `api_cloud_trend` (app.py lines 299-309). -/
def trendFold (rows : List ((ℤ × Option String × String) × ℕ)) :
    List (String × List (ℤ × DayBucket)) :=
  rows.foldl trendStep defaultClouds

/-- The series loop (app.py lines 311-317): one entry per day label, absent
days filled with the zero bucket. -/
def mkSeries (labels : List ℤ) (st : List (ℤ × DayBucket)) :
    List (ℤ × DayBucket) :=
  labels.map fun d => (d, (alGet st d).getD zeroBucket)

/-- The JSON body of `/api/cloud_trend` (dates as local day numbers). -/
structure TrendOut where
  days : List ℤ
  clouds : List (String × List (ℤ × DayBucket))
  window_start_local : ℤ
  window_end_local : ℤ
  deriving Repr, DecidableEq

/-- Embedding of `api_cloud_trend` (app.py lines 266-326): clamp `days`,
midnight-anchored local range of `days` calendar days ending today, day labels
from local dates, grouped rows bucketed per cloud and date, series padded to
the label list. -/
def api_cloud_trend (daysP : DaysParam) (now_local : ℤ) (runs : List Run) :
    TrendOut :=
  let days := clampDays daysP
  let midnight_today := dateOf now_local * secondsPerDay
  let start_local := midnight_today - (days - 1) * secondsPerDay
  let end_local := midnight_today + secondsPerDay
  let day_labels := (List.range days.toNat).map
    fun i : ℕ => dateOf (start_local + (i : ℤ) * secondsPerDay)
  let rows := trendRows runs (toUTC start_local) (toUTC end_local)
  let clouds := trendFold rows
  { days := day_labels
    clouds := clouds.map fun p => (p.1, mkSeries day_labels p.2)
    window_start_local := start_local
    window_end_local := end_local }

/-- The day bucket the trend holds for cloud key `c` and date key `d`. -/
def bucketVal (clouds : List (String × List (ℤ × DayBucket))) (c : String)
    (d : ℤ) : DayBucket :=
  (alGet ((alGet clouds c).getD []) d).getD zeroBucket

/-- Whether a grouped trend row belongs to cloud key `c` and date key `d`. -/
def rowMatches (c : String) (d : ℤ) (row : (ℤ × Option String × String) × ℕ) :
    Bool :=
  decide (cloudKey row.1.2.1 = c) && decide (row.1.1 = d)

/-- Total count carried by the rows for `(c, d)` whose status satisfies `p`. -/
def matchCount (rows : List ((ℤ × Option String × String) × ℕ)) (c : String)
    (d : ℤ) (p : String → Bool) : ℕ :=
  ((rows.filter fun row => rowMatches c d row && p row.1.2.2).map Prod.snd).sum

/-- One row's effect on the `(c, d)` bucket: `applyStatus` when the row matches
that bucket, the identity otherwise. -/
def bucketStep (c : String) (d : ℤ) (b : DayBucket)
    (row : (ℤ × Option String × String) × ℕ) : DayBucket :=
  if rowMatches c d row then applyStatus b row.1.2.2 row.2 else b

/-! ## Ingestion (`/ingest/json`) -/

/-- One element of the ingestion batch.  Fields are `none` when the JSON key is
absent (or falsy where the code tests truthiness); the two timestamp fields
distinguish absent (`none`), present-but-unparsable (`some none`, which makes
`datetime.fromisoformat` raise), and parsed (`some (some t)`). -/
structure Item where
  request_id : Option String
  scheduler : Option String
  cloud : Option String
  started_at : Option (Option ℤ)
  ended_at : Option (Option ℤ)
  status : Option String
  reason : Option String
  subreason : Option String
  notes : Option String
  deriving Repr, DecidableEq

/-- The `Run` row an item's fields are written into (app.py lines 350-357). -/
def itemRun (rid : String) (it : Item) (started : ℤ) (ended : Option ℤ) : Run :=
  { request_id := rid
    scheduler := it.scheduler.getD "BLR-NSP-SCHEDULER1"
    cloud := it.cloud
    started_at := started
    ended_at := ended
    status := it.status.getD "FAILED"
    reason := it.reason
    subreason := it.subreason
    notes := it.notes }

/-- `Run.query.filter_by(request_id=rid).first() is not None`. -/
def hasRid (store : List Run) (rid : String) : Bool :=
  store.any fun r => decide (r.request_id = rid)

/-- Overwrite (in place) the first record carrying `rid`. -/
def replaceFirst : List Run → String → Run → List Run
  | [], _, _ => []
  | r :: t, rid, rec =>
      if r.request_id = rid then rec :: t else r :: replaceFirst t rid rec

/-- The upsert of one batch element: update the existing row for `rid` in
place, or append a new row. -/
def upsertRun (store : List Run) (rec : Run) : List Run :=
  if hasRid store rec.request_id then
    replaceFirst store rec.request_id rec
  else
    store ++ [rec]

/-- Processing of one batch element (app.py lines 340-357) against the session
state: a missing `request_id` or a missing/unparsable `started_at` (or an
unparsable truthy `ended_at`) raises, which aborts the batch. -/
def ingestStep (store : List Run) (added updated : ℕ) (it : Item) :
    Except Unit (List Run × ℕ × ℕ) :=
  match it.request_id with
  | none => .error ()
  | some rid =>
    match it.started_at with
    | none => .error ()
    | some none => .error ()
    | some (some started) =>
      match it.ended_at with
      | some none => .error ()
      | some (some ended) =>
          if hasRid store rid then
            .ok (replaceFirst store rid (itemRun rid it started (some ended)),
              added, updated + 1)
          else
            .ok (store ++ [itemRun rid it started (some ended)],
              added + 1, updated)
      | none =>
          if hasRid store rid then
            .ok (replaceFirst store rid (itemRun rid it started none),
              added, updated + 1)
          else
            .ok (store ++ [itemRun rid it started none],
              added + 1, updated)

/-- The element loop of `ingest_json`: sequential, aborted by the first raising
element. -/
def ingestItems (store : List Run) (added updated : ℕ) :
    List Item → Except Unit (List Run × ℕ × ℕ)
  | [] => .ok (store, added, updated)
  | it :: rest =>
      match ingestStep store added updated it with
      | .error e => .error e
      | .ok (s, a, u) => ingestItems s a u rest

/-- Embedding of `ingest_json` (app.py lines 329-360) on the session level:
returns the session state and the `(added, updated)` tally, or the propagated
exception. -/
def ingest_json (store : List Run) (items : List Item) :
    Except Unit (List Run × ℕ × ℕ) :=
  ingestItems store 0 0 items

/-- The *committed* database state after the request: `db.session.commit()`
runs only after the whole loop, so a raising element rolls the session back
and the store is unchanged. -/
def committedStore (store : List Run) (items : List Item) : List Run :=
  match ingest_json store items with
  | .ok (s, _, _) => s
  | .error _ => store

/-- An item the per-element processing accepts. -/
def itemOK (it : Item) : Bool :=
  it.request_id.isSome
    && (match it.started_at with
        | some (some _) => true
        | _ => false)
    && (match it.ended_at with
        | some none => false
        | _ => true)

/-- Number of stored rows carrying `rid`. -/
def ridCount (store : List Run) (rid : String) : ℕ :=
  (store.filter fun r => decide (r.request_id = rid)).length

/-- First stored row carrying `rid`, as the upsert lookup sees it. -/
def ridLookup (store : List Run) (rid : String) : Option Run :=
  store.find? fun r => decide (r.request_id = rid)

/-- The `request_id` of an accepted item (`str(item["request_id"])`). -/
def itemRid (it : Item) : String := it.request_id.getD ""

/-- The parsed `started_at` of an accepted item. -/
def itemStarted (it : Item) : ℤ := (it.started_at.getD none).getD 0

/-- The parsed optional `ended_at` of an accepted item. -/
def itemEnded (it : Item) : Option ℤ :=
  match it.ended_at with
  | some (some e) => some e
  | _ => none

/-- The row a whole accepted item is written into. -/
def itemToRun (it : Item) : Run :=
  itemRun (itemRid it) it (itemStarted it) (itemEnded it)

/-- The session state after a batch of accepted items: one sequential upsert
per element, in input order. -/
def okFold (store : List Run) (items : List Item) : List Run :=
  items.foldl (fun s it => upsertRun s (itemToRun it)) store

/-- Whether the ingestion request succeeded (no exception). -/
def exceptOk : Except Unit (List Run × ℕ × ℕ) → Bool
  | .ok _ => true
  | .error _ => false

/-! ## Sample data for concrete witnesses -/

/-- A passed run on `blr-cloud4` at UTC second 700. -/
def sampleRun1 : Run :=
  ⟨"r1", "BLR-NSP-SCHEDULER1", some "blr-cloud4", 700, none, "PASSED",
    none, none, none⟩

/-- A run started at UTC 844200 = local midnight of day 10: its UTC calendar
day is 9 but its local calendar day is 10. -/
def trendEdgeRun : Run :=
  ⟨"t1", "BLR-NSP-SCHEDULER1", some "blr-cloud4", 844200, none, "PASSED",
    none, none, none⟩

/-- A well-formed batch element for `request_id` `"a1"`, marked `FAILED`. -/
def itemA : Item :=
  ⟨some "a1", none, some "blr-cloud4", some (some 500), none, some "FAILED",
    some "Quota Exceed", none, none⟩

/-- A second well-formed element for the same `request_id` `"a1"` with
different field values (`PASSED` on the other cloud). -/
def itemB : Item :=
  ⟨some "a1", some "SCHED2", some "blr-cloud5", some (some 900), some (some 950),
    some "PASSED", none, none, none⟩

/-- An element missing the required `started_at` field. -/
def itemBad : Item :=
  ⟨some "b7", none, none, none, none, some "PASSED", none, none, none⟩

/-! ## Theorems -/

theorem dateOf_day_offset (d o : ℤ) (h0 : 0 ≤ o) (h1 : o < secondsPerDay) :
    dateOf (d * secondsPerDay + o) = d := by
  have hne : secondsPerDay ≠ 0 := by decide
  have : d * secondsPerDay + o = o + d * secondsPerDay := by ring
  rw [dateOf, this, Int.add_mul_ediv_right _ _ hne,
    Int.ediv_eq_zero_of_lt h0 h1, zero_add]

theorem dateOf_add_day (t : ℤ) : dateOf (t + secondsPerDay) = dateOf t + 1 := by
  have hne : secondsPerDay ≠ 0 := by decide
  have : t + secondsPerDay = t + 1 * secondsPerDay := by ring
  rw [dateOf, this, Int.add_mul_ediv_right _ _ hne, dateOf]

theorem anchorOf_add_day (t : ℤ) :
    anchorOf (t + secondsPerDay) = anchorOf t + secondsPerDay := by
  simp only [anchorOf, dateOf_add_day]; ring

theorem anchorOf_pred_anchor (R : ℤ) : anchorOf (anchorOf R - 1) = anchorOf R := by
  have h : anchorOf R - 1 = dateOf R * secondsPerDay + (anchorSecs - 1) := by
    simp only [anchorOf]; ring
  rw [anchorOf, h, dateOf_day_offset _ _ (by decide) (by decide)]; rfl

/-- Branch of `get_window_bounds` for a reference at or after today's anchor. -/
theorem get_window_bounds_ge (r : ℤ) (h : anchorOf r ≤ r) :
    get_window_bounds r =
      { start_local := anchorOf r, end_local := anchorOf r + secondsPerDay,
        start_utc := toUTC (anchorOf r),
        end_utc := toUTC (anchorOf r + secondsPerDay) } := by
  simp only [get_window_bounds, toUTC, if_pos h]

/-- Branch of `get_window_bounds` for a reference strictly before today's anchor. -/
theorem get_window_bounds_lt (r : ℤ) (h : r < anchorOf r) :
    get_window_bounds r =
      { start_local := anchorOf r - secondsPerDay, end_local := anchorOf r,
        start_utc := toUTC (anchorOf r - secondsPerDay),
        end_utc := toUTC (anchorOf r) } := by
  simp only [get_window_bounds, toUTC, if_neg (not_le.mpr h), Window.mk.injEq]
  refine ⟨by ring, by ring, by ring, by ring⟩

/-- **C1.** For every reference instant `R` (local seconds), `get_window_bounds`
returns the half-open 24 h window starting at the anchor `A` = 10:00:01 on
`R`'s calendar date whenever `A ≤ R` (inclusive start, so `R` exactly at the
anchor second starts the window at that instant), and otherwise the window
starting at the previous day's anchor; in particular at `R = A - 1` (one second
before the anchor) the resolved window is the previous day's window. -/
theorem default_window_resolution (R : ℤ) :
    (anchorOf R ≤ R →
      get_window_bounds R =
        { start_local := anchorOf R, end_local := anchorOf R + secondsPerDay,
          start_utc := toUTC (anchorOf R),
          end_utc := toUTC (anchorOf R + secondsPerDay) })
    ∧ (R < anchorOf R →
      get_window_bounds R =
        { start_local := anchorOf R - secondsPerDay, end_local := anchorOf R,
          start_utc := toUTC (anchorOf R - secondsPerDay),
          end_utc := toUTC (anchorOf R) })
    ∧ get_window_bounds (anchorOf R - 1) =
        { start_local := anchorOf R - secondsPerDay, end_local := anchorOf R,
          start_utc := toUTC (anchorOf R - secondsPerDay),
          end_utc := toUTC (anchorOf R) } := by
  refine ⟨get_window_bounds_ge R, get_window_bounds_lt R, ?_⟩
  have ha := anchorOf_pred_anchor R
  have h1 : anchorOf R - 1 < anchorOf (anchorOf R - 1) := by rw [ha]; omega
  rw [get_window_bounds_lt _ h1, ha]

/-- Witness for C1 at the concrete reference instant `R = 100000` (local):
its date is day 1, its anchor is `122401 > R`, so the previous day's window
`[36001, 122401)` local is resolved. -/
theorem default_window_resolution_witness :
    get_window_bounds 100000 =
      { start_local := 36001, end_local := 122401,
        start_utc := 16201, end_utc := 102601 } := by
  have h := (default_window_resolution 100000).2.1 (by decide)
  rw [h]; decide

/-- **C2, counterexample.** The claim `window(R).end == window(R + 24h).end`
fails at `R = 0`: the two window ends (local as well as UTC) differ by one day. -/
theorem window_end_shift_counterexample :
    ¬ ((get_window_bounds 0).end_local =
        (get_window_bounds (0 + secondsPerDay)).end_local
      ∧ (get_window_bounds 0).end_utc =
        (get_window_bounds (0 + secondsPerDay)).end_utc) := by
  decide

/-- **C2, amended.** Resolved windows are contiguous and non-overlapping:
`window(R).end = window(R + 24h).start` (both in local and UTC seconds), and
the boundary instant is excluded from the preceding window's query (strict `<`
on the end bound) while being the inclusive start of the following window. -/
theorem windows_contiguous (R : ℤ) :
    (get_window_bounds R).end_local =
      (get_window_bounds (R + secondsPerDay)).start_local
    ∧ (get_window_bounds R).end_utc =
      (get_window_bounds (R + secondsPerDay)).start_utc
    ∧ ¬ inQueryWindow (get_window_bounds R) ((get_window_bounds R).end_utc)
    ∧ inQueryWindow (get_window_bounds (R + secondsPerDay))
        ((get_window_bounds R).end_utc) := by
  have hshift : (get_window_bounds (R + secondsPerDay)).start_local =
      (get_window_bounds R).start_local + secondsPerDay := by
    rw [get_window_bounds, get_window_bounds, anchorOf_add_day]
    by_cases h : anchorOf R ≤ R
    · simp only [if_pos h, if_pos (by omega : anchorOf R + secondsPerDay ≤ R + secondsPerDay)]
    · simp only [if_neg h, if_neg (by omega : ¬ anchorOf R + secondsPerDay ≤ R + secondsPerDay)]
      ring
  have hsl : ∀ r : ℤ, (get_window_bounds r).end_local =
      (get_window_bounds r).start_local + secondsPerDay := fun r => rfl
  have hsu : ∀ r : ℤ, (get_window_bounds r).start_utc =
      toUTC (get_window_bounds r).start_local := fun r => rfl
  have heu : ∀ r : ℤ, (get_window_bounds r).end_utc =
      toUTC (get_window_bounds r).end_local := fun r => rfl
  refine ⟨by rw [hshift, hsl], by rw [heu, hsu, hshift, hsl], ?_, ?_⟩
  · intro hmem
    rcases hmem with ⟨_, hlt⟩
    exact lt_irrefl _ hlt
  · constructor
    · rw [hsu, hshift, heu, hsl]
    · rw [heu, hsl R, heu, hsl (R + secondsPerDay), hshift]
      simp only [toUTC]
      have hd : secondsPerDay = 86400 := rfl
      omega

/-- **C4.** Window resolution dispatch: (1) if both `start` and `end` parse,
the resolved window carries exactly those two UTC instants verbatim; (2)
otherwise a parsable `day` resolves to that date's own anchor window —
`get_window_bounds` at local noon of the date, which is 10:00:01 of that date
through 10:00:01 of the next; (3) otherwise the default resolution at the
current instant is used. -/
theorem request_window_dispatch (sP eP : IsoParam) (dP : DayParam) (now : ℤ) :
    (∀ s e, sP = .valid s → eP = .valid e →
      resolve_window_from_request sP eP dP now =
        { start_local := s + istOffset, end_local := e + istOffset,
          start_utc := s, end_utc := e })
    ∧ (¬ (∃ s e, sP = .valid s ∧ eP = .valid e) → ∀ d, dP = .valid d →
      resolve_window_from_request sP eP dP now = get_window_bounds (noonOf d)
      ∧ get_window_bounds (noonOf d) =
        { start_local := d * secondsPerDay + anchorSecs,
          end_local := d * secondsPerDay + anchorSecs + secondsPerDay,
          start_utc := toUTC (d * secondsPerDay + anchorSecs),
          end_utc := toUTC (d * secondsPerDay + anchorSecs + secondsPerDay) })
    ∧ (¬ (∃ s e, sP = .valid s ∧ eP = .valid e) → (∀ d, dP ≠ .valid d) →
      resolve_window_from_request sP eP dP now = get_window_bounds now) := by
  have hanch : ∀ d : ℤ, anchorOf (noonOf d) = d * secondsPerDay + anchorSecs := by
    intro d
    rw [anchorOf, noonOf, dateOf_day_offset d 43200 (by decide) (by decide)]
  have hday : ∀ d : ℤ, get_window_bounds (noonOf d) =
      { start_local := d * secondsPerDay + anchorSecs,
        end_local := d * secondsPerDay + anchorSecs + secondsPerDay,
        start_utc := toUTC (d * secondsPerDay + anchorSecs),
        end_utc := toUTC (d * secondsPerDay + anchorSecs + secondsPerDay) } := by
    intro d
    have hle : anchorOf (noonOf d) ≤ noonOf d := by
      rw [hanch, noonOf]
      have h1 : anchorSecs = 36001 := rfl
      have h2 : secondsPerDay = 86400 := rfl
      omega
    rw [get_window_bounds_ge _ hle, hanch]
  refine ⟨?_, ?_, ?_⟩
  · rintro s e rfl rfl
    rfl
  · rintro hne d rfl
    refine ⟨?_, hday d⟩
    cases sP <;> cases eP <;>
      first
        | rfl
        | exact absurd ⟨_, _, rfl, rfl⟩ hne
  · intro hne hd
    cases dP with
    | valid d => exact absurd rfl (hd d)
    | absent =>
        cases sP <;> cases eP <;>
          first
            | rfl
            | exact absurd ⟨_, _, rfl, rfl⟩ hne
    | malformed =>
        cases sP <;> cases eP <;>
          first
            | rfl
            | exact absurd ⟨_, _, rfl, rfl⟩ hne

/-- Witness for C4: explicit `start=5`, `end=99` (UTC seconds) are used
verbatim even though a `day` parameter is also present. -/
theorem request_window_dispatch_witness :
    resolve_window_from_request (IsoParam.valid 5) (IsoParam.valid 99)
      (DayParam.valid 3) 0 =
      { start_local := 19805, end_local := 19899, start_utc := 5, end_utc := 99 } := by
  have h := (request_window_dispatch (IsoParam.valid 5) (IsoParam.valid 99)
    (DayParam.valid 3) 0).1 5 99 rfl rfl
  rw [h]
  decide

/-- **C5, counterexample.** A malformed `start` together with a well-formed
`end` makes the `/details` read endpoint raise an error instead of silently
falling back to the default window. -/
theorem details_malformed_raises :
    details_window LocalParam.malformed (LocalParam.valid 36001) 0 =
      Except.error () := rfl

/-- **C5, amended.** The API read endpoints, which resolve their window through
`resolve_window_from_request`, never error on malformed or missing `start`,
`end`, `day` parameters: whenever no valid `start`/`end` pair and no valid
`day` is supplied the default current-window resolution is used.  The
`/details` page endpoint is the exception: it raises an error whenever `start`
and `end` are both supplied and either one fails its strict local-time
format. -/
theorem window_param_fallback :
    (∀ (sP eP : IsoParam) (dP : DayParam) (now : ℤ),
      ¬ (∃ s e, sP = .valid s ∧ eP = .valid e) → (∀ d, dP ≠ .valid d) →
      resolve_window_from_request sP eP dP now = get_window_bounds now)
    ∧ (∀ (sP eP : LocalParam) (now : ℤ),
      sP.present = true → eP.present = true →
      (sP = .malformed ∨ eP = .malformed) →
      details_window sP eP now = Except.error ()) := by
  constructor
  · intro sP eP dP now hne hd
    cases dP with
    | valid d => exact absurd rfl (hd d)
    | absent =>
        cases sP <;> cases eP <;>
          first
            | rfl
            | exact absurd ⟨_, _, rfl, rfl⟩ hne
    | malformed =>
        cases sP <;> cases eP <;>
          first
            | rfl
            | exact absurd ⟨_, _, rfl, rfl⟩ hne
  · intro sP eP now hs he hm
    rcases hm with hm | hm
    · subst hm
      cases eP with
      | absent => exact Bool.noConfusion he
      | malformed => rfl
      | valid v => rfl
    · subst hm
      cases sP with
      | absent => exact Bool.noConfusion hs
      | malformed => rfl
      | valid v => rfl

/-- Witness for C5 (amended): a malformed `start` with an absent `end` and a
malformed `day` falls back to the default window of the current instant
`now = 50000`, while `/details` errors on a malformed `start` with a valid
`end`. -/
theorem window_param_fallback_witness :
    resolve_window_from_request IsoParam.malformed IsoParam.absent
      DayParam.malformed 50000 = get_window_bounds 50000
    ∧ details_window LocalParam.malformed (LocalParam.valid 36001) 17 =
      Except.error () := by
  constructor
  · exact window_param_fallback.1 IsoParam.malformed IsoParam.absent
      DayParam.malformed 50000
      (by rintro ⟨s, e, hs, he⟩; cases hs)
      (by intro d h; cases h)
  · exact window_param_fallback.2 LocalParam.malformed (LocalParam.valid 36001)
      17 rfl rfl (Or.inl rfl)

theorem windowRuns_of_inverted (runs : List Run) (s e : ℤ) (h : e ≤ s) :
    windowRuns runs s e = [] := by
  refine List.filter_eq_nil_iff.mpr fun r _ => ?_
  simp only [Bool.and_eq_true, decide_eq_true_eq, not_and]
  intro hle hlt
  omega

/-- **C10.** An explicit `start`/`end` pair with `end ≤ start` is accepted
verbatim with no validation — the resolved window carries exactly those UTC
bounds — and every windowed read endpoint then returns empty results: zero
total, empty status and reason counts, an empty failures mapping, an empty run
list for any filter combination, and an empty per-cloud mapping. -/
theorem inverted_window_yields_empty (runs : List Run) (s e : ℤ)
    (dP : DayParam) (now : ℤ) (h : e ≤ s) :
    (resolve_window_from_request (.valid s) (.valid e) dP now).start_utc = s
    ∧ (resolve_window_from_request (.valid s) (.valid e) dP now).end_utc = e
    ∧ windowRuns runs s e = []
    ∧ api_summary runs s e = { total_runs := 0, status_counts := [], failures := [] }
    ∧ api_failures runs s e = []
    ∧ (∀ fs fr fsch fc, api_runs runs s e fs fr fsch fc = [])
    ∧ api_by_cloud runs s e = [] := by
  have hw := windowRuns_of_inverted runs s e h
  refine ⟨rfl, rfl, hw, ?_, ?_, ?_, ?_⟩
  · simp [api_summary, hw, groupCounts]
  · simp [api_failures, hw]
  · intro fs fr fsch fc
    simp only [api_runs, hw]
    cases fs <;> cases fr <;> cases fsch <;> cases fc <;> simp
  · simp [api_by_cloud, hw, groupCounts]

/-- Witness for C10 at a one-run store and the inverted window
`start = 1000 > end = 500`. -/
theorem inverted_window_yields_empty_witness :
    api_summary [sampleRun1] 1000 500 =
      { total_runs := 0, status_counts := [], failures := [] }
    ∧ api_runs [sampleRun1] 1000 500 none none none none = [] := by
  have h := inverted_window_yields_empty [sampleRun1] 1000 500
    DayParam.absent 0 (by decide)
  exact ⟨h.2.2.2.1, h.2.2.2.2.2.1 none none none none⟩

/-- **C3.** (code bug) The trend's day-bucketed grouping uses `func.date` on
the stored naive-UTC `started_at`, i.e. the *UTC* calendar date, while the
day labels are local calendar dates.  At the concrete store
`[trendEdgeRun]` (one `PASSED` run on `blr-cloud4`, started at UTC 844200 =
local midnight of day 10) and a trend request at local noon of day 10 with
`days = 1`: the run passes the window filter and its local date 10 is the one
day label, yet its bucket key is UTC date 9, so the `blr-cloud4` series shows
zero counts — the run is silently dropped instead of being grouped under its
local calendar date. -/
theorem trend_groups_by_utc_date :
    dateOf trendEdgeRun.started_at = 9
    ∧ localDateOf trendEdgeRun.started_at = 10
    ∧ (api_cloud_trend (DaysParam.valid 1) 907200 [trendEdgeRun]).days = [10]
    ∧ windowRuns [trendEdgeRun]
        (toUTC ((api_cloud_trend (DaysParam.valid 1) 907200
          [trendEdgeRun]).window_start_local))
        (toUTC ((api_cloud_trend (DaysParam.valid 1) 907200
          [trendEdgeRun]).window_end_local)) = [trendEdgeRun]
    ∧ alGet (api_cloud_trend (DaysParam.valid 1) 907200 [trendEdgeRun]).clouds
        "blr-cloud4" = some [(10, zeroBucket)] := by
  decide

/-! ### Association-list lemmas -/

theorem alGet_nil {α β : Type} [DecidableEq α] (k : α) :
    alGet ([] : List (α × β)) k = none := rfl

theorem alGet_cons {α β : Type} [DecidableEq α] (k' : α) (v : β) (t : List (α × β))
    (k : α) :
    alGet ((k', v) :: t) k = if k' = k then some v else alGet t k := by
  by_cases h : k' = k
  · simp [alGet, List.find?, h]
  · simp [alGet, List.find?, h]

theorem alGet_alUpdate_self {α β : Type} [DecidableEq α] (l : List (α × β))
    (k : α) (d : β) (f : β → β) :
    alGet (alUpdate l k d f) k = some (f ((alGet l k).getD d)) := by
  induction l with
  | nil => simp [alUpdate, alGet_cons, alGet_nil]
  | cons p t ih =>
      obtain ⟨k', v⟩ := p
      by_cases h : k = k'
      · subst h
        simp [alUpdate, alGet_cons]
      · simp [alUpdate, alGet_cons, h, Ne.symm h, ih]

theorem alGet_alUpdate_ne {α β : Type} [DecidableEq α] (l : List (α × β))
    (k k' : α) (d : β) (f : β → β) (h : k' ≠ k) :
    alGet (alUpdate l k d f) k' = alGet l k' := by
  induction l with
  | nil => simp [alUpdate, alGet_cons, alGet_nil, Ne.symm h]
  | cons p t ih =>
      obtain ⟨ka, v⟩ := p
      by_cases hk : k = ka
      · subst hk
        simp [alUpdate, alGet_cons, Ne.symm h]
      · by_cases hk' : ka = k'
        · subst hk'
          simp [alUpdate, alGet_cons, hk]
        · simp [alUpdate, alGet_cons, hk, hk', ih]

theorem alGet_mem {α β : Type} [DecidableEq α] (l : List (α × β)) (k : α)
    (v : β) (h : alGet l k = some v) : (k, v) ∈ l := by
  induction l with
  | nil => simp [alGet_nil] at h
  | cons p t ih =>
      obtain ⟨ka, w⟩ := p
      rw [alGet_cons] at h
      by_cases hk : ka = k
      · subst hk
        rw [if_pos rfl] at h
        cases h
        exact List.mem_cons_self _ _
      · rw [if_neg hk] at h
        exact List.mem_cons_of_mem _ (ih h)

theorem mem_keys_alUpdate {α β : Type} [DecidableEq α] (l : List (α × β))
    (k : α) (d : β) (f : β → β) (a : α)
    (h : a ∈ (alUpdate l k d f).map Prod.fst) :
    a ∈ l.map Prod.fst ∨ a = k := by
  induction l with
  | nil =>
      simp [alUpdate] at h
      exact Or.inr h
  | cons p t ih =>
      obtain ⟨ka, v⟩ := p
      by_cases hk : k = ka
      · subst hk
        simp [alUpdate] at h
        simpa using Or.inl h
      · rw [alUpdate, if_neg hk] at h
        simp only [List.map_cons, List.mem_cons] at h ⊢
        rcases h with h | h
        · exact Or.inl (Or.inl h)
        · rcases ih h with h' | h'
          · exact Or.inl (Or.inr h')
          · exact Or.inr h'

theorem alUpdate_keys_nodup {α β : Type} [DecidableEq α] (l : List (α × β))
    (k : α) (d : β) (f : β → β) (h : (l.map Prod.fst).Nodup) :
    ((alUpdate l k d f).map Prod.fst).Nodup := by
  induction l with
  | nil => simp [alUpdate]
  | cons p t ih =>
      obtain ⟨ka, v⟩ := p
      simp only [List.map_cons, List.nodup_cons] at h
      by_cases hk : k = ka
      · subst hk
        rw [alUpdate, if_pos rfl]
        simp only [List.map_cons, List.nodup_cons]
        exact h
      · rw [alUpdate, if_neg hk]
        simp only [List.map_cons, List.nodup_cons]
        refine ⟨fun hmem => ?_, ih h.2⟩
        rcases mem_keys_alUpdate t k d f ka hmem with h' | h'
        · exact h.1 h'
        · exact hk (h'.symm)

theorem alGet_of_mem_nodup {α β : Type} [DecidableEq α] (l : List (α × β))
    (p : α × β) (hn : (l.map Prod.fst).Nodup) (hm : p ∈ l) :
    alGet l p.1 = some p.2 := by
  induction l with
  | nil => cases hm
  | cons q t ih =>
      obtain ⟨ka, v⟩ := q
      simp only [List.map_cons, List.nodup_cons] at hn
      rcases List.mem_cons.mp hm with h | h
      · subst h
        simp [alGet_cons]
      · rw [alGet_cons]
        have hne : ka ≠ p.1 := by
          intro hk
          exact hn.1 (hk ▸ List.mem_map_of_mem Prod.fst h)
        rw [if_neg hne]
        exact ih hn.2 h

/-! ### Trend bucket characterization -/

theorem bucketVal_trendStep (clouds : List (String × List (ℤ × DayBucket)))
    (row : (ℤ × Option String × String) × ℕ) (c : String) (d : ℤ) :
    bucketVal (trendStep clouds row) c d = bucketStep c d (bucketVal clouds c d) row := by
  unfold trendStep bucketStep bucketVal rowMatches
  by_cases hc : cloudKey row.1.2.1 = c
  · rw [hc, alGet_alUpdate_self, Option.getD_some]
    by_cases hd : row.1.1 = d
    · rw [hd, alGet_alUpdate_self, Option.getD_some]
      simp [hc, hd]
    · rw [alGet_alUpdate_ne _ _ _ _ _ (fun h => hd h.symm)]
      simp [hd]
  · rw [alGet_alUpdate_ne _ _ _ _ _ (fun h => hc h.symm)]
    simp [hc]

theorem bucketVal_foldl (c : String) (d : ℤ) :
    ∀ (rows : List ((ℤ × Option String × String) × ℕ))
      (clouds : List (String × List (ℤ × DayBucket))),
    bucketVal (rows.foldl trendStep clouds) c d =
      rows.foldl (bucketStep c d) (bucketVal clouds c d)
  | [], _ => rfl
  | row :: rows, clouds => by
      rw [List.foldl_cons, List.foldl_cons, bucketVal_foldl c d rows,
        bucketVal_trendStep]

theorem bucketVal_defaultClouds (c : String) (d : ℤ) :
    bucketVal defaultClouds c d = zeroBucket := by
  unfold bucketVal defaultClouds
  by_cases h4 : c = "blr-cloud4"
  · subst h4; rfl
  · by_cases h5 : c = "blr-cloud5"
    · subst h5; rfl
    · rw [alGet_cons, alGet_cons, if_neg (fun h => h4 h.symm),
        if_neg (fun h => h5 h.symm)]
      rfl

theorem bucketVal_trendFold (rows : List ((ℤ × Option String × String) × ℕ))
    (c : String) (d : ℤ) :
    bucketVal (trendFold rows) c d = rows.foldl (bucketStep c d) zeroBucket := by
  rw [trendFold, bucketVal_foldl, bucketVal_defaultClouds]

theorem matchCount_nil (c : String) (d : ℤ) (p : String → Bool) :
    matchCount [] c d p = 0 := rfl

theorem matchCount_cons (row : (ℤ × Option String × String) × ℕ)
    (rows : List ((ℤ × Option String × String) × ℕ)) (c : String) (d : ℤ)
    (p : String → Bool) :
    matchCount (row :: rows) c d p =
      (if rowMatches c d row && p row.1.2.2 then row.2 else 0)
        + matchCount rows c d p := by
  unfold matchCount
  rw [List.filter_cons]
  by_cases h : (rowMatches c d row && p row.1.2.2) = true
  · rw [if_pos h, if_pos h, List.map_cons, List.sum_cons]
  · rw [if_neg h, if_neg h, Nat.zero_add]

theorem bucketStep_fields (c : String) (d : ℤ) (b : DayBucket)
    (row : (ℤ × Option String × String) × ℕ) :
    (bucketStep c d b row).passed =
        b.passed + (if rowMatches c d row && decide (row.1.2.2 = "PASSED")
          then row.2 else 0)
    ∧ (bucketStep c d b row).failed =
        b.failed + (if rowMatches c d row && !decide (row.1.2.2 = "PASSED")
          then row.2 else 0)
    ∧ (bucketStep c d b row).total =
        b.total + (if rowMatches c d row then row.2 else 0) := by
  unfold bucketStep applyStatus
  by_cases hm : rowMatches c d row
  · by_cases hp : row.1.2.2 = "PASSED"
    · simp [hm, hp]
    · simp [hm, hp]
  · simp [hm]

theorem bucketFold_counts (c : String) (d : ℤ) :
    ∀ (rows : List ((ℤ × Option String × String) × ℕ)) (b : DayBucket),
    (rows.foldl (bucketStep c d) b).passed =
        b.passed + matchCount rows c d (fun st => decide (st = "PASSED"))
    ∧ (rows.foldl (bucketStep c d) b).failed =
        b.failed + matchCount rows c d (fun st => !decide (st = "PASSED"))
    ∧ (rows.foldl (bucketStep c d) b).total =
        b.total + matchCount rows c d (fun _ => true)
  | [], b => by simp [matchCount_nil]
  | row :: rows, b => by
      obtain ⟨sp, sf, st⟩ := bucketStep_fields c d b row
      obtain ⟨ihp, ihf, iht⟩ := bucketFold_counts c d rows (bucketStep c d b row)
      rw [List.foldl_cons]
      refine ⟨?_, ?_, ?_⟩
      · simp only [matchCount_cons, ihp, sp]
        omega
      · simp only [matchCount_cons, ihf, sf]
        omega
      · simp only [matchCount_cons, iht, st, Bool.and_true]
        omega

theorem matchCount_split (rows : List ((ℤ × Option String × String) × ℕ))
    (c : String) (d : ℤ) (p q : String → Bool) :
    matchCount rows c d p =
      matchCount rows c d (fun st => p st && q st)
        + matchCount rows c d (fun st => p st && !q st) := by
  induction rows with
  | nil => rfl
  | cons row rows ih =>
      simp only [matchCount_cons, ih]
      by_cases hm : rowMatches c d row
      · by_cases hp : p row.1.2.2
        · by_cases hq : q row.1.2.2
          · simp only [hm, hp, hq, Bool.true_and, Bool.not_true, Bool.and_false,
              Bool.and_true, Bool.true_and, if_true, if_false]
            simp [hp, hq]
            omega
          · simp only [hm, hp, hq, Bool.true_and]
            simp [hp, hq]
            omega
        · have hp' : p row.1.2.2 = false := by
            revert hp; cases p row.1.2.2 <;> simp
          simp [hp']
      · have hm' : rowMatches c d row = false := by
          revert hm; cases rowMatches c d row <;> simp
        simp [hm']

theorem foldl_trendStep_keys_nodup :
    ∀ (rows : List ((ℤ × Option String × String) × ℕ))
      (clouds : List (String × List (ℤ × DayBucket))),
    ((clouds.map Prod.fst).Nodup) →
      (((rows.foldl trendStep clouds).map Prod.fst).Nodup)
  | [], _, h => h
  | row :: rows, clouds, h => by
      rw [List.foldl_cons]
      exact foldl_trendStep_keys_nodup rows _ (alUpdate_keys_nodup _ _ _ _ h)

theorem trendFold_keys_nodup (rows : List ((ℤ × Option String × String) × ℕ)) :
    ((trendFold rows).map Prod.fst).Nodup := by
  refine foldl_trendStep_keys_nodup rows defaultClouds ?_
  simp [defaultClouds]

theorem mem_trendRows_key (runs : List Run) (s e : ℤ)
    (row : (ℤ × Option String × String) × ℕ) (h : row ∈ trendRows runs s e) :
    ∃ r ∈ windowRuns runs s e,
      row.1 = (dateOf r.started_at, r.cloud, r.status) := by
  unfold trendRows groupCounts at h
  rcases List.mem_map.mp h with ⟨k, hk, hrow⟩
  have hk' := List.mem_dedup.mp hk
  rcases List.mem_map.mp hk' with ⟨r, hr, hkey⟩
  exact ⟨r, hr, by rw [← hrow, ← hkey]⟩

theorem matchCount_eq_zero (rows : List ((ℤ × Option String × String) × ℕ))
    (c : String) (d : ℤ) (p : String → Bool)
    (h : ∀ row ∈ rows, rowMatches c d row = false) :
    matchCount rows c d p = 0 := by
  unfold matchCount
  have : rows.filter (fun row => rowMatches c d row && p row.1.2.2) = [] := by
    refine List.filter_eq_nil_iff.mpr fun row hrow => ?_
    rw [h row hrow]
    simp
  rw [this]
  rfl

theorem dayBucket_ext (b : DayBucket) (hp : b.passed = 0) (hf : b.failed = 0)
    (ht : b.total = 0) : b = zeroBucket := by
  cases b
  simp only at hp hf ht
  rw [zeroBucket, hp, hf, ht]

theorem series_spec (rows : List ((ℤ × Option String × String) × ℕ))
    (labels : List ℤ) :
    ∀ p ∈ (trendFold rows).map (fun p => (p.1, mkSeries labels p.2)),
      p.2.map Prod.fst = labels
      ∧ p.2.length = labels.length
      ∧ ∀ q ∈ p.2, q.1 ∈ labels ∧ q.2 = bucketVal (trendFold rows) p.1 q.1 := by
  intro p hp
  rcases List.mem_map.mp hp with ⟨p', hp', rfl⟩
  refine ⟨?_, ?_, ?_⟩
  · rw [mkSeries, List.map_map,
      show (Prod.fst ∘ fun d : ℤ => (d, (alGet p'.2 d).getD zeroBucket)) = id from rfl,
      List.map_id]
  · simp [mkSeries]
  · intro q hq
    rcases List.mem_map.mp hq with ⟨d, hd, rfl⟩
    refine ⟨hd, ?_⟩
    have hget : alGet (trendFold rows) p'.1 = some p'.2 :=
      alGet_of_mem_nodup _ _ (trendFold_keys_nodup rows) hp'
    rw [bucketVal, hget, Option.getD_some]

theorem bucketVal_counts (rows : List ((ℤ × Option String × String) × ℕ))
    (c : String) (d : ℤ) :
    (bucketVal (trendFold rows) c d).passed =
        matchCount rows c d (fun st => decide (st = "PASSED"))
    ∧ (bucketVal (trendFold rows) c d).failed =
        matchCount rows c d (fun st => decide (st = "FAILED"))
          + matchCount rows c d
              (fun st => !decide (st = "PASSED") && !decide (st = "FAILED"))
    ∧ (bucketVal (trendFold rows) c d).total =
        (bucketVal (trendFold rows) c d).passed
          + (bucketVal (trendFold rows) c d).failed := by
  obtain ⟨hp, hf, ht⟩ := bucketFold_counts c d rows zeroBucket
  rw [bucketVal_trendFold, hp, hf, ht]
  have hzp : zeroBucket.passed = 0 := rfl
  have hzf : zeroBucket.failed = 0 := rfl
  have hzt : zeroBucket.total = 0 := rfl
  rw [hzp, hzf, hzt, Nat.zero_add, Nat.zero_add, Nat.zero_add]
  have hsplitf := matchCount_split rows c d
    (fun st => !decide (st = "PASSED")) (fun st => decide (st = "FAILED"))
  have e1 : (fun st => !decide (st = "PASSED") && decide (st = "FAILED"))
      = (fun st : String => decide (st = "FAILED")) := by
    funext st
    by_cases h : st = "FAILED"
    · subst h; decide
    · simp [h]
  have e2 : (fun st => !decide (st = "PASSED") && !decide (st = "FAILED"))
      = (fun st : String => !decide (st = "PASSED") && !decide (st = "FAILED")) := rfl
  rw [e1] at hsplitf
  have hsplitt := matchCount_split rows c d
    (fun _ => true) (fun st => decide (st = "PASSED"))
  have e3 : (fun st : String => true && decide (st = "PASSED"))
      = (fun st : String => decide (st = "PASSED")) := by
    funext st; simp
  have e4 : (fun st : String => true && !decide (st = "PASSED"))
      = (fun st : String => !decide (st = "PASSED")) := by
    funext st; simp
  rw [e3, e4] at hsplitt
  exact ⟨rfl, hsplitf, hsplitt⟩

theorem bucketVal_zero_of_no_run (runs : List Run) (s e : ℤ) (c : String)
    (d : ℤ)
    (h : ∀ r ∈ windowRuns runs s e,
      ¬ (cloudKey r.cloud = c ∧ dateOf r.started_at = d)) :
    bucketVal (trendFold (trendRows runs s e)) c d = zeroBucket := by
  have hrows : ∀ row ∈ trendRows runs s e, rowMatches c d row = false := by
    intro row hrow
    rcases mem_trendRows_key runs s e row hrow with ⟨r, hr, hkey⟩
    by_contra hb
    rw [Bool.not_eq_false] at hb
    unfold rowMatches at hb
    rw [hkey] at hb
    rw [Bool.and_eq_true] at hb
    exact h r hr ⟨of_decide_eq_true hb.1, of_decide_eq_true hb.2⟩
  obtain ⟨hp, hf, ht⟩ := bucketVal_counts (trendRows runs s e) c d
  refine dayBucket_ext _ ?_ ?_ ?_
  · rw [hp, matchCount_eq_zero _ _ _ _ hrows]
  · rw [hf, matchCount_eq_zero _ _ _ _ hrows, matchCount_eq_zero _ _ _ _ hrows]
  · rw [ht, hp, hf, matchCount_eq_zero _ _ _ _ hrows,
      matchCount_eq_zero _ _ _ _ hrows, matchCount_eq_zero _ _ _ _ hrows]

/-- **C6.** Cloud-trend shape: the effective day count is `days` (default 7)
clamped to `[1, 30]`; the day labels are exactly that many consecutive local
calendar days ending with the current local day; every cloud series carries
one entry per label (days without matching runs included, with the zero
bucket); and each entry's counts sum correctly: `passed` is the count of
`PASSED` rows for that cloud and day, `failed` aggregates the `FAILED` rows
plus the killed-and-other (neither `PASSED` nor `FAILED`) rows, and
`total = passed + failed`. -/
theorem cloud_trend_series_shape (daysP : DaysParam) (now : ℤ) (runs : List Run) :
    1 ≤ clampDays daysP ∧ clampDays daysP ≤ 30 ∧ clampDays DaysParam.absent = 7
    ∧ (api_cloud_trend daysP now runs).days =
        (List.range (clampDays daysP).toNat).map
          (fun i : ℕ => dateOf now - (clampDays daysP - 1) + (i : ℤ))
    ∧ (api_cloud_trend daysP now runs).days.getLast? = some (dateOf now)
    ∧ ∀ p ∈ (api_cloud_trend daysP now runs).clouds,
        p.2.map Prod.fst = (api_cloud_trend daysP now runs).days
        ∧ p.2.length = (clampDays daysP).toNat
        ∧ ∀ q ∈ p.2,
            q.2.passed = matchCount
                (trendRows runs
                  (toUTC ((api_cloud_trend daysP now runs).window_start_local))
                  (toUTC ((api_cloud_trend daysP now runs).window_end_local)))
                p.1 q.1 (fun st => decide (st = "PASSED"))
            ∧ q.2.failed = matchCount
                  (trendRows runs
                    (toUTC ((api_cloud_trend daysP now runs).window_start_local))
                    (toUTC ((api_cloud_trend daysP now runs).window_end_local)))
                  p.1 q.1 (fun st => decide (st = "FAILED"))
                + matchCount
                  (trendRows runs
                    (toUTC ((api_cloud_trend daysP now runs).window_start_local))
                    (toUTC ((api_cloud_trend daysP now runs).window_end_local)))
                  p.1 q.1
                  (fun st => !decide (st = "PASSED") && !decide (st = "FAILED"))
            ∧ q.2.total = q.2.passed + q.2.failed
            ∧ ((∀ r ∈ windowRuns runs
                  (toUTC ((api_cloud_trend daysP now runs).window_start_local))
                  (toUTC ((api_cloud_trend daysP now runs).window_end_local)),
                ¬ (cloudKey r.cloud = p.1 ∧ dateOf r.started_at = q.1)) →
                q.2 = zeroBucket) := by
  have h1 : 1 ≤ clampDays daysP := by
    cases daysP <;> simp only [clampDays] <;> omega
  have h2 : clampDays daysP ≤ 30 := by
    cases daysP <;> simp only [clampDays] <;> omega
  have hlab : ∀ i : ℕ,
      dateOf (dateOf now * secondsPerDay - (clampDays daysP - 1) * secondsPerDay
          + (i : ℤ) * secondsPerDay)
        = dateOf now - (clampDays daysP - 1) + (i : ℤ) := by
    intro i
    have he : dateOf now * secondsPerDay - (clampDays daysP - 1) * secondsPerDay
          + (i : ℤ) * secondsPerDay
        = (dateOf now - (clampDays daysP - 1) + (i : ℤ)) * secondsPerDay + 0 := by
      ring
    rw [he, dateOf_day_offset _ 0 le_rfl (by decide)]
  have hdays0 : (api_cloud_trend daysP now runs).days =
      (List.range (clampDays daysP).toNat).map
        (fun i : ℕ => dateOf (dateOf now * secondsPerDay
          - (clampDays daysP - 1) * secondsPerDay + (i : ℤ) * secondsPerDay)) := rfl
  have hdays : (api_cloud_trend daysP now runs).days =
      (List.range (clampDays daysP).toNat).map
        (fun i : ℕ => dateOf now - (clampDays daysP - 1) + (i : ℤ)) := by
    rw [hdays0]
    simp only [hlab]
  have hlast : (api_cloud_trend daysP now runs).days.getLast? = some (dateOf now) := by
    rw [hdays]
    have hn : (clampDays daysP).toNat = ((clampDays daysP).toNat - 1) + 1 := by
      omega
    rw [hn, List.range_succ, List.map_append, List.map_cons, List.map_nil,
      List.getLast?_concat]
    have hv : dateOf now - (clampDays daysP - 1)
        + (((clampDays daysP).toNat - 1 : ℕ) : ℤ) = dateOf now := by
      omega
    rw [hv]
  refine ⟨h1, h2, rfl, hdays, hlast, ?_⟩
  intro p hp
  have hp' : p ∈ (trendFold (trendRows runs
      (toUTC ((api_cloud_trend daysP now runs).window_start_local))
      (toUTC ((api_cloud_trend daysP now runs).window_end_local)))).map
        (fun p => (p.1, mkSeries ((api_cloud_trend daysP now runs).days) p.2)) := hp
  obtain ⟨hfst, hlen, hq⟩ := series_spec _ _ p hp'
  refine ⟨hfst, ?_, ?_⟩
  · rw [hlen, hdays, List.length_map, List.length_range]
  · intro q hqm
    obtain ⟨hdmem, hqval⟩ := hq q hqm
    obtain ⟨cp, cf, ct⟩ := bucketVal_counts (trendRows runs
      (toUTC ((api_cloud_trend daysP now runs).window_start_local))
      (toUTC ((api_cloud_trend daysP now runs).window_end_local))) p.1 q.1
    refine ⟨?_, ?_, ?_, ?_⟩
    · rw [hqval]; exact cp
    · rw [hqval]; exact cf
    · rw [hqval]; exact ct
    · intro hnorun
      rw [hqval]
      exact bucketVal_zero_of_no_run runs _ _ p.1 q.1 hnorun

/-! ### Ingestion lemmas -/

theorem ingestStep_ok (store : List Run) (a u : ℕ) (it : Item)
    (h : itemOK it = true) :
    ingestStep store a u it =
      .ok (upsertRun store (itemToRun it),
        if hasRid store (itemRid it) then (a, u + 1) else (a + 1, u)) := by
  unfold itemOK at h
  cases hr : it.request_id with
  | none => rw [hr] at h; simp at h
  | some rid =>
    cases hs : it.started_at with
    | none => rw [hs] at h; simp at h
    | some so =>
      cases so with
      | none => rw [hs] at h; simp at h
      | some started =>
        cases he : it.ended_at with
        | none =>
            simp only [ingestStep, hr, hs, he, upsertRun, itemToRun, itemRid,
              itemStarted, itemEnded, itemRun, Option.getD_some]
            by_cases hhr : hasRid store rid
            · simp [hhr]
            · simp [hhr]
        | some eo =>
            cases eo with
            | none => rw [he] at h; simp at h
            | some ended =>
                simp only [ingestStep, hr, hs, he, upsertRun, itemToRun, itemRid,
                  itemStarted, itemEnded, itemRun, Option.getD_some]
                by_cases hhr : hasRid store rid
                · simp [hhr]
                · simp [hhr]

theorem ridCount_cons (r : Run) (t : List Run) (rid : String) :
    ridCount (r :: t) rid =
      (if r.request_id = rid then 1 else 0) + ridCount t rid := by
  unfold ridCount
  rw [List.filter_cons]
  by_cases h : r.request_id = rid
  · simp [h]
    omega
  · simp [h]

theorem ridLookup_cons (r : Run) (t : List Run) (rid : String) :
    ridLookup (r :: t) rid =
      if r.request_id = rid then some r else ridLookup t rid := by
  unfold ridLookup
  by_cases h : r.request_id = rid
  · simp [List.find?, h]
  · simp [List.find?, h]

theorem hasRid_iff (store : List Run) (rid : String) :
    hasRid store rid = true ↔ ∃ r ∈ store, r.request_id = rid := by
  unfold hasRid
  rw [List.any_eq_true]
  constructor
  · rintro ⟨r, hr, hd⟩
    exact ⟨r, hr, of_decide_eq_true hd⟩
  · rintro ⟨r, hr, hd⟩
    exact ⟨r, hr, decide_eq_true hd⟩

theorem replaceFirst_lookup_self (rec : Run) (rid : String)
    (hrec : rec.request_id = rid) :
    ∀ store : List Run, ridLookup (replaceFirst store rid rec) rid =
      if hasRid store rid then some rec else none
  | [] => by simp [replaceFirst, ridLookup, hasRid]
  | r :: t => by
      by_cases h : r.request_id = rid
      · rw [replaceFirst, if_pos h, ridLookup_cons, if_pos hrec]
        have : hasRid (r :: t) rid = true :=
          (hasRid_iff _ _).mpr ⟨r, List.mem_cons_self _ _, h⟩
        rw [this]
        simp
      · rw [replaceFirst, if_neg h, ridLookup_cons, if_neg h,
          replaceFirst_lookup_self rec rid hrec t]
        have : hasRid (r :: t) rid = hasRid t rid := by
          unfold hasRid
          rw [List.any_cons]
          have : decide (r.request_id = rid) = false := decide_eq_false h
          rw [this, Bool.false_or]
        rw [this]

theorem replaceFirst_keys (rec : Run) (rid : String)
    (hrec : rec.request_id = rid) :
    ∀ store : List Run,
      (replaceFirst store rid rec).map Run.request_id =
        store.map Run.request_id
  | [] => rfl
  | r :: t => by
      by_cases h : r.request_id = rid
      · rw [replaceFirst, if_pos h]
        simp only [List.map_cons]
        rw [hrec, h]
      · rw [replaceFirst, if_neg h]
        simp only [List.map_cons]
        rw [replaceFirst_keys rec rid hrec t]

theorem ridCount_eq_count (store : List Run) (rid : String) :
    ridCount store rid = (store.map Run.request_id).count rid := by
  induction store with
  | nil => rfl
  | cons r t ih =>
      rw [ridCount_cons, ih, List.map_cons, List.count_cons]
      by_cases h : r.request_id = rid
      · simp [h]
        omega
      · simp [h]

theorem replaceFirst_lookup_ne (rec : Run) (rid rid' : String)
    (hne : rid' ≠ rid) (hrec : rec.request_id = rid) :
    ∀ store : List Run,
      ridLookup (replaceFirst store rid rec) rid' = ridLookup store rid'
  | [] => rfl
  | r :: t => by
      by_cases h : r.request_id = rid
      · rw [replaceFirst, if_pos h, ridLookup_cons, ridLookup_cons]
        rw [if_neg (by rw [hrec]; exact fun hh => hne hh.symm),
          if_neg (by rw [h]; exact fun hh => hne hh.symm)]
      · rw [replaceFirst, if_neg h, ridLookup_cons, ridLookup_cons,
          replaceFirst_lookup_ne rec rid rid' hne hrec t]

theorem hasRid_false_iff (store : List Run) (rid : String) :
    hasRid store rid = false ↔ ∀ r ∈ store, r.request_id ≠ rid := by
  constructor
  · intro h r hr heq
    have htrue := (hasRid_iff store rid).mpr ⟨r, hr, heq⟩
    rw [htrue] at h
    cases h
  · intro h
    cases hb : hasRid store rid with
    | false => rfl
    | true =>
        obtain ⟨r, hr, he⟩ := (hasRid_iff store rid).mp hb
        exact absurd he (h r hr)

theorem ridCount_append (s1 s2 : List Run) (rid : String) :
    ridCount (s1 ++ s2) rid = ridCount s1 rid + ridCount s2 rid := by
  unfold ridCount
  rw [List.filter_append, List.length_append]

theorem ridLookup_append_left_none (s1 s2 : List Run) (rid : String)
    (h : ∀ r ∈ s1, r.request_id ≠ rid) :
    ridLookup (s1 ++ s2) rid = ridLookup s2 rid := by
  induction s1 with
  | nil => rfl
  | cons r t ih =>
      rw [List.cons_append, ridLookup_cons,
        if_neg (h r (List.mem_cons_self _ _)),
        ih fun x hx => h x (List.mem_cons_of_mem _ hx)]

theorem ridLookup_append (s1 s2 : List Run) (rid : String) :
    ridLookup (s1 ++ s2) rid =
      match ridLookup s1 rid with
      | some r => some r
      | none => ridLookup s2 rid := by
  induction s1 with
  | nil => rfl
  | cons r t ih =>
      rw [List.cons_append, ridLookup_cons, ridLookup_cons]
      by_cases h : r.request_id = rid
      · rw [if_pos h, if_pos h]
      · rw [if_neg h, if_neg h, ih]

theorem upsert_lookup_self (store : List Run) (rec : Run) :
    ridLookup (upsertRun store rec) rec.request_id = some rec := by
  cases hb : hasRid store rec.request_id with
  | true =>
      simp only [upsertRun, hb, if_true]
      rw [replaceFirst_lookup_self rec _ rfl store, hb, if_pos rfl]
  | false =>
      simp only [upsertRun, hb, Bool.false_eq_true, if_false]
      rw [ridLookup_append_left_none store [rec] _
        ((hasRid_false_iff store _).mp hb), ridLookup_cons, if_pos rfl]

theorem upsert_lookup_ne (store : List Run) (rec : Run) (rid' : String)
    (hne : rid' ≠ rec.request_id) :
    ridLookup (upsertRun store rec) rid' = ridLookup store rid' := by
  cases hb : hasRid store rec.request_id with
  | true =>
      simp only [upsertRun, hb, if_true]
      exact replaceFirst_lookup_ne rec _ rid' hne rfl store
  | false =>
      simp only [upsertRun, hb, Bool.false_eq_true, if_false]
      rw [ridLookup_append]
      cases h1 : ridLookup store rid' with
      | some r => rfl
      | none =>
          rw [ridLookup_cons, if_neg fun hh => hne hh.symm]
          rfl

theorem upsert_count_self (store : List Run) (rec : Run)
    (hn : (store.map Run.request_id).Nodup) :
    ridCount (upsertRun store rec) rec.request_id = 1 := by
  cases hb : hasRid store rec.request_id with
  | true =>
      simp only [upsertRun, hb, if_true]
      rw [ridCount_eq_count, replaceFirst_keys rec _ rfl store]
      obtain ⟨r, hr, he⟩ := (hasRid_iff store _).mp hb
      have hmem : rec.request_id ∈ store.map Run.request_id := by
        rw [← he]
        exact List.mem_map_of_mem Run.request_id hr
      exact List.count_eq_one_of_mem hn hmem
  | false =>
      simp only [upsertRun, hb, Bool.false_eq_true, if_false]
      rw [ridCount_append]
      have h0 : ridCount store rec.request_id = 0 := by
        rw [ridCount_eq_count]
        refine List.count_eq_zero.mpr fun hmem => ?_
        obtain ⟨r, hr, he⟩ := List.mem_map.mp hmem
        exact (hasRid_false_iff store _).mp hb r hr he
      rw [h0, ridCount_cons, if_pos rfl]
      rfl

theorem upsert_count_ne (store : List Run) (rec : Run) (rid' : String)
    (hne : rid' ≠ rec.request_id) :
    ridCount (upsertRun store rec) rid' = ridCount store rid' := by
  cases hb : hasRid store rec.request_id with
  | true =>
      simp only [upsertRun, hb, if_true]
      rw [ridCount_eq_count, replaceFirst_keys rec _ rfl store, ← ridCount_eq_count]
  | false =>
      simp only [upsertRun, hb, Bool.false_eq_true, if_false]
      rw [ridCount_append, ridCount_cons, if_neg fun hh => hne hh.symm]
      rfl

theorem upsert_keys_nodup (store : List Run) (rec : Run)
    (hn : (store.map Run.request_id).Nodup) :
    ((upsertRun store rec).map Run.request_id).Nodup := by
  cases hb : hasRid store rec.request_id with
  | true =>
      simp only [upsertRun, hb, if_true]
      rw [replaceFirst_keys rec _ rfl store]
      exact hn
  | false =>
      simp only [upsertRun, hb, Bool.false_eq_true, if_false]
      rw [List.map_append]
      refine List.Nodup.append hn (List.nodup_singleton _) ?_
      intro x hx hx'
      rw [List.map_singleton, List.mem_singleton] at hx'
      subst hx'
      obtain ⟨r, hr, he⟩ := List.mem_map.mp hx
      exact (hasRid_false_iff store _).mp hb r hr he

theorem okFold_nil (store : List Run) : okFold store [] = store := rfl

theorem okFold_cons (store : List Run) (it : Item) (items : List Item) :
    okFold store (it :: items) = okFold (upsertRun store (itemToRun it)) items := rfl

theorem okFold_append (store : List Run) (xs ys : List Item) :
    okFold store (xs ++ ys) = okFold (okFold store xs) ys := by
  unfold okFold
  rw [List.foldl_append]

theorem okFold_nodup :
    ∀ (items : List Item) (store : List Run),
      (store.map Run.request_id).Nodup →
      ((okFold store items).map Run.request_id).Nodup
  | [], _, hn => hn
  | it :: items, store, hn =>
      okFold_nodup items _ (upsert_keys_nodup store (itemToRun it) hn)

theorem okFold_untouched (rid : String) :
    ∀ (items : List Item) (store : List Run),
      (∀ it ∈ items, itemRid it ≠ rid) →
      ridLookup (okFold store items) rid = ridLookup store rid
      ∧ ridCount (okFold store items) rid = ridCount store rid
  | [], _, _ => ⟨rfl, rfl⟩
  | it :: items, store, h => by
      have hne : rid ≠ (itemToRun it).request_id :=
        fun hh => h it (List.mem_cons_self _ _) hh.symm
      obtain ⟨hl, hc⟩ := okFold_untouched rid items
        (upsertRun store (itemToRun it))
        fun x hx => h x (List.mem_cons_of_mem _ hx)
      rw [okFold_cons, hl, hc, upsert_lookup_ne store _ rid hne,
        upsert_count_ne store _ rid hne]
      exact ⟨rfl, rfl⟩

theorem ingestItems_eq_okFold :
    ∀ (items : List Item) (store : List Run) (a u : ℕ),
      (∀ it ∈ items, itemOK it = true) →
      ∃ a' u', ingestItems store a u items = .ok (okFold store items, a', u')
  | [], store, a, u, _ => ⟨a, u, rfl⟩
  | it :: items, store, a, u, h => by
      have hstep := ingestStep_ok store a u it (h it (List.mem_cons_self _ _))
      have htail : ∀ x ∈ items, itemOK x = true :=
        fun x hx => h x (List.mem_cons_of_mem _ hx)
      by_cases hhr : hasRid store (itemRid it)
      · obtain ⟨a', u', ih⟩ := ingestItems_eq_okFold items
          (upsertRun store (itemToRun it)) a (u + 1) htail
        refine ⟨a', u', ?_⟩
        show (match ingestStep store a u it with
          | Except.error e => Except.error e
          | Except.ok (s, a, u) => ingestItems s a u items) = _
        rw [hstep, if_pos hhr]
        exact ih
      · obtain ⟨a', u', ih⟩ := ingestItems_eq_okFold items
          (upsertRun store (itemToRun it)) (a + 1) u htail
        refine ⟨a', u', ?_⟩
        show (match ingestStep store a u it with
          | Except.error e => Except.error e
          | Except.ok (s, a, u) => ingestItems s a u items) = _
        rw [hstep, if_neg hhr]
        exact ih

theorem ingestItems_append :
    ∀ (xs ys : List Item) (store : List Run) (a u : ℕ),
      ingestItems store a u (xs ++ ys) =
        match ingestItems store a u xs with
        | .error e => .error e
        | .ok (s, a', u') => ingestItems s a' u' ys
  | [], ys, store, a, u => rfl
  | it :: xs, ys, store, a, u => by
      simp only [List.cons_append, ingestItems]
      cases hstep : ingestStep store a u it with
      | error e => rfl
      | ok t =>
          obtain ⟨s, a', u'⟩ := t
          exact ingestItems_append xs ys s a' u'

theorem ingestStep_missing_required (store : List Run) (a u : ℕ) (it : Item)
    (h : it.request_id = none ∨ it.started_at = none) :
    ingestStep store a u it = .error () := by
  rcases h with h | h
  · simp only [ingestStep, h]
  · cases hr : it.request_id with
    | none => simp only [ingestStep, hr]
    | some rid => simp only [ingestStep, hr, h]

theorem replaceFirst_append_self (store : List Run) (rec : Run)
    (h : ∀ r ∈ store, r.request_id ≠ rec.request_id) :
    replaceFirst (store ++ [rec]) rec.request_id rec = store ++ [rec] := by
  induction store with
  | nil =>
      show replaceFirst [rec] rec.request_id rec = [rec]
      rw [replaceFirst, if_pos rfl]
  | cons r t ih =>
      rw [List.cons_append, replaceFirst,
        if_neg (h r (List.mem_cons_self _ _)),
        ih fun x hx => h x (List.mem_cons_of_mem _ hx)]

/-- **C7.** Last-write-wins within a batch: if a batch contains two elements
`a` (earlier) and `b` (later) carrying the same `request_id`, every element is
accepted, and no element after `b` reuses that id, then the batch succeeds,
the committed store is the fold of sequential upserts, and exactly one record
is stored under that id — with exactly the second (later) element's field
values. -/
theorem batch_duplicate_last_write_wins (store : List Run)
    (pre mid post : List Item) (a b : Item) (rid : String)
    (hnodup : (store.map Run.request_id).Nodup)
    (hvalid : ∀ it ∈ pre ++ a :: mid ++ b :: post, itemOK it = true)
    (ha : itemRid a = rid) (hb : itemRid b = rid)
    (hpost : ∀ it ∈ post, itemRid it ≠ rid) :
    exceptOk (ingest_json store (pre ++ a :: mid ++ b :: post)) = true
    ∧ committedStore store (pre ++ a :: mid ++ b :: post) =
        okFold store (pre ++ a :: mid ++ b :: post)
    ∧ ridLookup (okFold store (pre ++ a :: mid ++ b :: post)) rid =
        some (itemToRun b)
    ∧ ridCount (okFold store (pre ++ a :: mid ++ b :: post)) rid = 1 := by
  obtain ⟨a', u', hok⟩ :=
    ingestItems_eq_okFold (pre ++ a :: mid ++ b :: post) store 0 0 hvalid
  have hjson : ingest_json store (pre ++ a :: mid ++ b :: post) =
      .ok (okFold store (pre ++ a :: mid ++ b :: post), a', u') := hok
  have hsplit : pre ++ a :: mid ++ b :: post = (pre ++ a :: mid) ++ (b :: post) := by
    simp [List.append_assoc]
  have hrecid : (itemToRun b).request_id = rid := hb
  have key : ridLookup (okFold store (pre ++ a :: mid ++ b :: post)) rid =
        some (itemToRun b)
      ∧ ridCount (okFold store (pre ++ a :: mid ++ b :: post)) rid = 1 := by
    rw [hsplit, okFold_append, okFold_cons]
    have hn1 : ((okFold store (pre ++ a :: mid)).map Run.request_id).Nodup :=
      okFold_nodup _ _ hnodup
    obtain ⟨hl2, hc2⟩ := okFold_untouched rid post
      (upsertRun (okFold store (pre ++ a :: mid)) (itemToRun b)) hpost
    constructor
    · rw [hl2]
      have hself := upsert_lookup_self (okFold store (pre ++ a :: mid)) (itemToRun b)
      rw [hrecid] at hself
      exact hself
    · rw [hc2]
      have hcnt := upsert_count_self (okFold store (pre ++ a :: mid)) (itemToRun b) hn1
      rw [hrecid] at hcnt
      exact hcnt
  refine ⟨by rw [hjson]; rfl, ?_, key.1, key.2⟩
  unfold committedStore
  rw [hjson]

/-- Witness for C7: the two-element batch `[itemA, itemB]` (same id `"a1"`)
into an empty store leaves exactly one `"a1"` record holding `itemB`'s
values. -/
theorem batch_duplicate_last_write_wins_witness :
    ridLookup (okFold [] [itemA, itemB]) "a1" = some (itemToRun itemB)
    ∧ ridCount (okFold [] [itemA, itemB]) "a1" = 1 := by
  have h := batch_duplicate_last_write_wins [] [] [] [] itemA itemB "a1"
    (by decide) (by decide) (by decide) (by decide) (by decide)
  exact ⟨h.2.2.1, h.2.2.2⟩

/-- **C8.** Upsert idempotence at the reporting level: ingesting a fresh valid
single-run payload creates the record and reports `(added, updated) = (1, 0)`;
ingesting the identical payload again leaves the store unchanged with exactly
one record for that `request_id` and reports `(0, 1)` — updated, not
created. -/
theorem upsert_idempotent_reporting (store : List Run) (it : Item)
    (hok : itemOK it = true)
    (hfresh : hasRid store (itemRid it) = false)
    (hnodup : (store.map Run.request_id).Nodup) :
    ingest_json store [it] = .ok (store ++ [itemToRun it], 1, 0)
    ∧ ingest_json (store ++ [itemToRun it]) [it] =
        .ok (store ++ [itemToRun it], 0, 1)
    ∧ ridCount (store ++ [itemToRun it]) (itemRid it) = 1 := by
  have hfresh' : hasRid store (itemToRun it).request_id = false := hfresh
  refine ⟨?_, ?_, ?_⟩
  · show (match ingestStep store 0 0 it with
      | Except.error e => Except.error e
      | Except.ok (s, a, u) => ingestItems s a u []) = _
    rw [ingestStep_ok store 0 0 it hok, hfresh]
    simp only [upsertRun, hfresh', Bool.false_eq_true, if_false]
    rfl
  · have hhas : hasRid (store ++ [itemToRun it]) (itemRid it) = true :=
      (hasRid_iff _ _).mpr ⟨itemToRun it, by simp, rfl⟩
    have hhas' : hasRid (store ++ [itemToRun it]) (itemToRun it).request_id = true :=
      hhas
    have hrepl : upsertRun (store ++ [itemToRun it]) (itemToRun it) =
        store ++ [itemToRun it] := by
      simp only [upsertRun, hhas', if_true]
      exact replaceFirst_append_self store (itemToRun it)
        ((hasRid_false_iff store _).mp hfresh')
    show (match ingestStep (store ++ [itemToRun it]) 0 0 it with
      | Except.error e => Except.error e
      | Except.ok (s, a, u) => ingestItems s a u []) = _
    rw [ingestStep_ok _ 0 0 it hok, hhas, hrepl]
    rfl
  · have h0 : ridCount store (itemRid it) = 0 := by
      rw [ridCount_eq_count]
      refine List.count_eq_zero.mpr fun hmem => ?_
      obtain ⟨r, hr, he⟩ := List.mem_map.mp hmem
      exact (hasRid_false_iff store _).mp hfresh r hr he
    rw [ridCount_append, h0, ridCount_cons,
      if_pos (show (itemToRun it).request_id = itemRid it from rfl)]
    rfl

/-- Witness for C8: `itemA` ingested twice into an empty store. -/
theorem upsert_idempotent_reporting_witness :
    ingest_json [] [itemA] = .ok ([itemToRun itemA], 1, 0)
    ∧ ingest_json [itemToRun itemA] [itemA] = .ok ([itemToRun itemA], 0, 1)
    ∧ ridCount [itemToRun itemA] "a1" = 1 := by
  have h := upsert_idempotent_reporting [] itemA (by decide) (by decide)
    (by decide)
  exact ⟨h.1, h.2.1, h.2.2⟩

/-- **C9, counterexample.** A batch whose first element is valid and whose
second lacks `started_at` fails as a whole, and the committed store does *not*
retain the first element: the single `db.session.commit()` never runs, so
nothing of the batch is stored (here the store stays empty and the prior
element's id `"a1"` is absent). -/
theorem ingest_prior_element_not_stored :
    ingest_json [] [itemA, itemBad] = .error ()
    ∧ committedStore [] [itemA, itemBad] = []
    ∧ ridCount (committedStore [] [itemA, itemBad]) "a1" = 0 :=
  ⟨rfl, rfl, rfl⟩

/-- **C9, amended.** An element missing `request_id` or `started_at` aborts
the batch at that element: the request raises, no later element is processed,
and — because the only commit happens after the whole loop — no element of the
batch is committed at all: the stored state remains exactly what it was before
the batch (records committed by earlier requests survive; the current batch's
prior elements do not). -/
theorem ingest_batch_abort (store : List Run) (pre post : List Item)
    (bad : Item) (hpre : ∀ it ∈ pre, itemOK it = true)
    (hbad : bad.request_id = none ∨ bad.started_at = none) :
    ingest_json store (pre ++ bad :: post) = .error ()
    ∧ committedStore store (pre ++ bad :: post) = store := by
  obtain ⟨a', u', hok⟩ := ingestItems_eq_okFold pre store 0 0 hpre
  have herr : ingest_json store (pre ++ bad :: post) = .error () := by
    show ingestItems store 0 0 (pre ++ bad :: post) = _
    rw [ingestItems_append pre (bad :: post) store 0 0, hok]
    show (match ingestStep (okFold store pre) a' u' bad with
      | Except.error e => Except.error e
      | Except.ok (s, a, u) => ingestItems s a u post) = _
    rw [ingestStep_missing_required _ _ _ bad hbad]
  refine ⟨herr, ?_⟩
  unfold committedStore
  rw [herr]

/-- Witness for C9 (amended): the batch `[itemA, itemBad]` against an empty
store errors and commits nothing. -/
theorem ingest_batch_abort_witness :
    ingest_json [] ([itemA] ++ itemBad :: []) = .error ()
    ∧ committedStore [] ([itemA] ++ itemBad :: []) = [] := by
  exact ingest_batch_abort [] [itemA] [] itemBad (by decide) (Or.inr rfl)

/-- Witness for C6 at `days = 3`, `now` = local noon of day 10, one stored run
outside the range: the labels are the three consecutive days `[8, 9, 10]`
ending with the current day, and the `blr-cloud4` series obtained from the
theorem's series conjunct has exactly 3 entries. -/
theorem cloud_trend_series_shape_witness :
    ("blr-cloud4",
      [((8 : ℤ), zeroBucket), (9, zeroBucket), (10, zeroBucket)]).2.length = 3
    ∧ (api_cloud_trend (DaysParam.valid 3) 907200 [sampleRun1]).days = [8, 9, 10] := by
  have h := cloud_trend_series_shape (DaysParam.valid 3) 907200 [sampleRun1]
  constructor
  · have hm : ("blr-cloud4",
        [((8 : ℤ), zeroBucket), (9, zeroBucket), (10, zeroBucket)])
        ∈ (api_cloud_trend (DaysParam.valid 3) 907200 [sampleRun1]).clouds := by
      decide
    have hlen := (h.2.2.2.2.2 _ hm).2.1
    exact hlen.trans (by decide)
  · rw [h.2.2.2.1]
    decide
